import Mathlib

/-!
Formal model of the ELF shared-object emitter in `compiler/elf_builder.h`
(the `ElfBuilder` class template and its helper builders), written as a
shallow embedding: every definition below mirrors a function or a code
path of the source file, and the theorems at the end settle the spec's
claims about it.
-/

namespace ElfSpec

/-- Page alignment constant (`kPageSize`). -/
def kPageSize : Nat := 4096

/-- Section flag `SHF_WRITE`. -/
def SHF_WRITE : Nat := 1
/-- Section flag `SHF_ALLOC`. -/
def SHF_ALLOC : Nat := 2
/-- Section flag `SHF_EXECINSTR`. -/
def SHF_EXECINSTR : Nat := 4

/-- Dynamic tag `DT_NULL`. -/
def DT_NULL : Nat := 0
/-- Dynamic tag `DT_HASH`. -/
def DT_HASH : Nat := 4
/-- Dynamic tag `DT_STRTAB`. -/
def DT_STRTAB : Nat := 5
/-- Dynamic tag `DT_SYMTAB`. -/
def DT_SYMTAB : Nat := 6
/-- Dynamic tag `DT_STRSZ`. -/
def DT_STRSZ : Nat := 10
/-- Dynamic tag `DT_SYMENT`. -/
def DT_SYMENT : Nat := 11
/-- Dynamic tag `DT_SONAME`. -/
def DT_SONAME : Nat := 14

/-- Symbol binding `STB_GLOBAL`. -/
def STB_GLOBAL : Nat := 1
/-- Symbol type `STT_OBJECT`. -/
def STT_OBJECT : Nat := 1
/-- Reserved undefined-section index `SHN_UNDEF`. -/
def SHN_UNDEF : Nat := 0

/-- Program-header flag `PF_X`. -/
def PF_X : Nat := 1
/-- Program-header flag `PF_W`. -/
def PF_W : Nat := 2
/-- Program-header flag `PF_R`. -/
def PF_R : Nat := 4

/-- Program-header type `PT_NULL`. -/
def PT_NULL : Nat := 0
/-- Program-header type `PT_LOAD`. -/
def PT_LOAD : Nat := 1
/-- Program-header type `PT_DYNAMIC`. -/
def PT_DYNAMIC : Nat := 2
/-- Program-header type `PT_PHDR`. -/
def PT_PHDR : Nat := 6
/-- Program-header type `PT_GNU_EH_FRAME`. -/
def PT_GNU_EH_FRAME : Nat := 0x6474e550

/-- Rounding helper `RoundUp(x, n)` from ART's `base/utils.h`; every call
site in `elf_builder.h` passes a positive power of two, for which the
division form below agrees with the source's mask form. -/
def roundUp (x n : Nat) : Nat := ((x + n - 1) / n) * n

/-- One step of the classic SysV `elfhash` loop, on 32-bit unsigned
arithmetic: `h = (h << 4) + c; g = h & 0xf0000000; h ^= g; h ^= g >> 24`. -/
def elfhashStep (h c : Nat) : Nat :=
  let h1 := ((h <<< 4) + c) % 2 ^ 32
  let g := h1 &&& 0xf0000000
  (h1 ^^^ g) ^^^ (g >>> 24)

/-- The `elfhash` function of `elf_builder.h` (taken from bionic), applied
to the bytes of a (NUL-free) symbol name. -/
def elfhash (name : List Char) : Nat :=
  name.foldl (fun h c => elfhashStep h c.toNat) 0

/-- Bucket-count selection in `GenerateHashContents`: 2 below 8 symbols,
4 below 32, 16 below 256, else `RoundUp(count/32, 2)`. -/
def nbucketsFor (n : Nat) : Nat :=
  if n < 8 then 2
  else if n < 32 then 4
  else if n < 256 then 16
  else roundUp (n / 32) 2

/-- State of the bucket and chain arrays while `GenerateHashContents`
fills in the hash table. -/
structure HashState where
  buckets : List Nat
  chain : List Nat
deriving Repr, DecidableEq

/-- The chain walk inside `GenerateHashContents`'s insertion loop:
`while (chain[hash_val] != 0) hash_val = chain[hash_val]`.  The fuel
argument is an upper bound on the number of steps; the invariant proofs
below show that `chain.length` steps always suffice on reachable states. -/
def chainEnd (chain : List Nat) : Nat → Nat → Nat
  | 0, j => j
  | fuel + 1, j =>
    if chain.getD j 0 = 0 then j else chainEnd chain fuel (chain.getD j 0)

/-- One iteration of the insertion loop of `GenerateHashContents`: place
symbol index `idx` (1-based) whose hash value is `hv` into the table —
into the bucket `hv % nbuckets` when that bucket is empty, else at the
end of the chain hanging off the bucket's occupant. -/
def insertSym (nb : Nat) (st : HashState) (hv idx : Nat) : HashState :=
  if st.buckets.getD (hv % nb) 0 = 0 then
    { st with buckets := st.buckets.set (hv % nb) idx }
  else
    { st with chain :=
        st.chain.set (chainEnd st.chain st.chain.length (st.buckets.getD (hv % nb) 0)) idx }

/-- The insertion loop of `GenerateHashContents`: symbol `i` (0-based in
the `symbols_` vector) is inserted with 1-based index `i + 1`. -/
def insertFrom (nb : Nat) : Nat → List Nat → HashState → HashState
  | _, [], st => st
  | i, hv :: rest, st => insertFrom nb (i + 1) rest (insertSym nb st hv (i + 1))

/-- `ElfSymtabBuilder::GenerateHashContents()`: the SysV hash words
`nbuckets :: nchain :: buckets ++ chain`, where `nchain` counts the null
symbol and the buckets/chain arrays start zeroed. -/
def generateHashContents (names : List (List Char)) : List Nat :=
  let n := names.length
  let nb := nbucketsFor n
  let chainSize := n + 1
  let st := insertFrom nb 0 (names.map elfhash)
    ⟨List.replicate nb 0, List.replicate chainSize 0⟩
  nb :: chainSize :: (st.buckets ++ st.chain)

/-- One step of the dynamic-loader lookup walk documented in
`GenerateHashContents`: follow the chain link of the current index. -/
def chainStep (chain : List Nat) (j : Nat) : Nat := chain.getD j 0

/-- The lookup walk of the SysV hash table: starting from the head stored
in bucket `b` and following chain links, index `i` is visited. -/
def Reaches (buckets chain : List Nat) (b i : Nat) : Prop :=
  ∃ m, (chainStep chain)^[m] (buckets.getD b 0) = i

/-- Invariant of the hash-table state after the first `k` of `total`
symbols have been inserted: array lengths are fixed, cell 0 of the chain
stays clear, all stored indices are at most `k`, every non-zero chain
link points strictly upward, and chain cells above `k` are still clear. -/
structure ChainInv (nb k total : Nat) (st : HashState) : Prop where
  blen : st.buckets.length = nb
  clen : st.chain.length = total + 1
  czero : st.chain.getD 0 0 = 0
  cval : ∀ j, st.chain.getD j 0 ≤ k
  cinc : ∀ j, st.chain.getD j 0 ≠ 0 → j < st.chain.getD j 0
  chi : ∀ j, k < j → st.chain.getD j 0 = 0
  bval : ∀ b, st.buckets.getD b 0 ≤ k

/-- NUL character terminating names in string tables. -/
def nul : Char := '\x00'

/-- `MakeStInfo(binding, type)`: `((binding) << 4) + ((type) & 0xf)`,
truncated to the `uint8_t` return type. -/
def makeStInfo (binding ty : Nat) : Nat := ((binding <<< 4) + (ty &&& 0xf)) % 256

/-- Argument record of `ElfSymtabBuilder::AddSymbol`; sections are
referred to by a stable numeric handle standing for the section pointer. -/
structure SymInput where
  name : List Char
  sec : Nat
  addr : Nat
  isRelative : Bool
  size : Nat
  binding : Nat
  ty : Nat
  other : Nat
deriving Repr, DecidableEq

/-- The `ElfSymbolState` record stored by `AddSymbol`. -/
structure SymState where
  name : List Char
  sec : Nat
  addr : Nat
  size : Nat
  isRelative : Bool
  info : Nat
  other : Nat
  nameIdx : Nat
deriving Repr, DecidableEq

/-- `AddSymbol`: build the stored state, packing binding and type through
`MakeStInfo` and leaving the name index as the placeholder 0. -/
def addSymbol (s : SymInput) : SymState :=
  ⟨s.name, s.sec, s.addr, s.size, s.isRelative, makeStInfo s.binding s.ty, s.other, 0⟩

/-- `GenerateStrtab`: the string table `'\0' ++ name0 ++ '\0' ++ …`. -/
def generateStrtab (names : List (List Char)) : List Char :=
  names.foldl (fun tab n => tab ++ n ++ [nul]) [nul]

/-- Name-index assignment done by `GenerateStrtab`: each symbol's
`name_idx_` is the string-table size just before its name is appended. -/
def assignNameIndices : Nat → List SymState → List SymState
  | _, [] => []
  | off, s :: rest => { s with nameIdx := off } :: assignNameIndices (off + s.name.length + 1) rest

/-- A symbol-table record (`Elf_Sym`). -/
structure Sym where
  st_name : Nat
  st_value : Nat
  st_size : Nat
  st_info : Nat
  st_other : Nat
  st_shndx : Nat
deriving Repr, DecidableEq

/-- The zeroed undefined symbol that `GenerateSymtab` emits first. -/
def nullSym : Sym := ⟨0, 0, 0, 0, 0, SHN_UNDEF⟩

/-- `ElfSymtabBuilder::GenerateSymtab()`: the null symbol followed by one
record per stored symbol; `secOff` and `secIdx` give the owning section's
`sh_offset` and assigned index at generation time. -/
def generateSymtab (secOff secIdx : Nat → Nat) (syms : List SymState) : List Sym :=
  nullSym :: syms.map fun s =>
    { st_name := s.nameIdx
      st_value := if s.isRelative then s.addr + secOff s.sec else s.addr
      st_size := s.size
      st_info := s.info
      st_other := s.other
      st_shndx := secIdx s.sec }

/-- The `ElfDynamicState` record stored by `AddDynamicTag`. -/
structure DynEntry where
  sec : Option Nat
  tag : Nat
  off : Nat
deriving Repr, DecidableEq

/-- `ElfDynamicBuilder::AddDynamicTag`: appends, except that `DT_NULL` is
silently dropped (both overloads share this guard). -/
def addDynamicTag (ds : List DynEntry) (tag off : Nat) (sec : Option Nat) : List DynEntry :=
  if tag = DT_NULL then ds else ds ++ [⟨sec, tag, off⟩]

/-- `ElfDynamicBuilder::GetSize()`: stored entries plus the three tags
appended at materialisation. -/
def dynGetSize (ds : List DynEntry) : Nat := ds.length + 3

/-- `ElfDynamicBuilder::GetDynamics(strsz, soname)`: rebase each entry
with an attached section by that section's `sh_addr` (via `addrOf`), then
append `DT_STRSZ`, `DT_SONAME` and the terminating `DT_NULL`. -/
def getDynamics (addrOf : Nat → Nat) (ds : List DynEntry) (strsz soname : Nat) :
    List (Nat × Nat) :=
  (ds.map fun d =>
    match d.sec with
    | some s => (d.tag, d.off + addrOf s)
    | none => (d.tag, d.off))
  ++ [(DT_STRSZ, strsz), (DT_SONAME, soname), (DT_NULL, 0)]

/-- The instruction sets of ART's `InstructionSet` enumeration. -/
inductive InstructionSet
  | kNone
  | kArm
  | kArm64
  | kThumb2
  | kX86
  | kX86_64
  | kMips
  | kMips64
deriving Repr, DecidableEq

/-- Machine constant `EM_386`. -/
def EM_386 : Nat := 3
/-- Machine constant `EM_MIPS`. -/
def EM_MIPS : Nat := 8
/-- Machine constant `EM_ARM`. -/
def EM_ARM : Nat := 40
/-- Machine constant `EM_X86_64`. -/
def EM_X86_64 : Nat := 62
/-- Machine constant `EM_AARCH64`. -/
def EM_AARCH64 : Nat := 183
/-- Flag `EF_ARM_EABI_VER5`. -/
def EF_ARM_EABI_VER5 : Nat := 0x05000000
/-- Flag `EF_MIPS_NOREORDER`. -/
def EF_MIPS_NOREORDER : Nat := 1
/-- Flag `EF_MIPS_PIC`. -/
def EF_MIPS_PIC : Nat := 2
/-- Flag `EF_MIPS_CPIC`. -/
def EF_MIPS_CPIC : Nat := 4
/-- Flag `EF_MIPS_ABI_O32`. -/
def EF_MIPS_ABI_O32 : Nat := 0x00001000
/-- Flag `EF_MIPS_ARCH_32R2`. -/
def EF_MIPS_ARCH_32R2 : Nat := 0x70000000
/-- Flag `EF_MIPS_ARCH_64R6`. -/
def EF_MIPS_ARCH_64R6 : Nat := 0xa0000000

/-- `ElfBuilder::SetISA`: the `e_machine`/`e_flags` pair per instruction
set; `none` models the default branch, which latches `fatal_error_`. -/
def setISA : InstructionSet → Option (Nat × Nat)
  | .kArm => some (EM_ARM, EF_ARM_EABI_VER5)
  | .kThumb2 => some (EM_ARM, EF_ARM_EABI_VER5)
  | .kArm64 => some (EM_AARCH64, 0)
  | .kX86 => some (EM_386, 0)
  | .kX86_64 => some (EM_X86_64, 0)
  | .kMips => some (EM_MIPS,
      EF_MIPS_NOREORDER ||| EF_MIPS_PIC ||| EF_MIPS_CPIC |||
      EF_MIPS_ABI_O32 ||| EF_MIPS_ARCH_32R2)
  | .kMips64 => some (EM_MIPS,
      EF_MIPS_NOREORDER ||| EF_MIPS_PIC ||| EF_MIPS_CPIC ||| EF_MIPS_ARCH_64R6)
  | .kNone => none

/-- Section type `SHT_NULL`. -/
def SHT_NULL : Nat := 0
/-- Section type `SHT_PROGBITS`. -/
def SHT_PROGBITS : Nat := 1
/-- Section type `SHT_SYMTAB`. -/
def SHT_SYMTAB : Nat := 2
/-- Section type `SHT_STRTAB`. -/
def SHT_STRTAB : Nat := 3
/-- Section type `SHT_HASH`. -/
def SHT_HASH : Nat := 5
/-- Section type `SHT_DYNAMIC`. -/
def SHT_DYNAMIC : Nat := 6
/-- Section type `SHT_NOBITS`. -/
def SHT_NOBITS : Nat := 8
/-- Section type `SHT_DYNSYM`. -/
def SHT_DYNSYM : Nat := 11

/-- Record-size parameters of the `ElfTypes` trait (`sizeof` of the
header, one program header, one section header, a symbol, a dynamic
entry); `Elf_Word` is 32-bit in both variants. -/
structure ElfSizes where
  ehdr : Nat
  phdrEnt : Nat
  shdr : Nat
  sym : Nat
  dyn : Nat
deriving Repr, DecidableEq

/-- The ELF32 instantiation of the size parameters. -/
def elf32Sizes : ElfSizes := ⟨52, 32, 40, 16, 8⟩

/-- The ELF64 instantiation of the size parameters. -/
def elf64Sizes : ElfSizes := ⟨64, 56, 64, 24, 16⟩

/-- A raw section registered through `RegisterRawSection`: fixed name,
type, flags, alignment, and a pre-formed buffer (only its size matters
for layout). -/
structure RawSec where
  name : String
  ty : Nat
  flags : Nat
  align : Nat
  bufSize : Nat
deriving Repr, DecidableEq

/-- Configuration handed to the `ElfBuilder` constructor, plus the raw
sections registered before `Init` and the caller's `.symtab` symbols. -/
structure Config where
  sizes : ElfSizes
  isa : InstructionSet
  path : List Char
  rodataSize : Nat
  textSize : Nat
  bssSize : Nat
  raws : List RawSec
  addSymbols : Bool
  symtabSyms : List SymInput
deriving Repr, DecidableEq

/-- Section handle of `.rodata` in this model. -/
def secRodata : Nat := 0
/-- Section handle of `.text` in this model. -/
def secText : Nat := 1
/-- Section handle of `.bss` in this model. -/
def secBss : Nat := 2
/-- Section handle of `.dynsym` in this model. -/
def secDynsym : Nat := 3
/-- Section handle of `.dynstr` in this model. -/
def secDynstr : Nat := 4
/-- Section handle of `.hash` in this model. -/
def secHash : Nat := 5

/-- Wraparound subtraction on 32-bit `Elf_Word` values (the operands of
interest are below `2 ^ 32`). -/
def w32sub (a b : Nat) : Nat := (a + (2 ^ 32 - b % 2 ^ 32)) % 2 ^ 32

/-- `ElfBuilder::SetupRequiredSymbols()`: the `AddSymbol` calls made by
the constructor, in order; the `.bss` pair is added only when the
configured `.bss` size is non-zero. -/
def requiredSymbols (cfg : Config) : List SymInput :=
  [⟨"oatdata".data, secRodata, 0, true, cfg.rodataSize, STB_GLOBAL, STT_OBJECT, 0⟩,
   ⟨"oatexec".data, secText, 0, true, cfg.textSize, STB_GLOBAL, STT_OBJECT, 0⟩,
   ⟨"oatlastword".data, secText, w32sub cfg.textSize 4, true, 4, STB_GLOBAL, STT_OBJECT, 0⟩]
  ++ (if cfg.bssSize ≠ 0 then
   [⟨"oatbss".data, secBss, 0, true, cfg.bssSize, STB_GLOBAL, STT_OBJECT, 0⟩,
    ⟨"oatbsslastword".data, secBss, w32sub cfg.bssSize 4, true, 4, STB_GLOBAL, STT_OBJECT, 0⟩]
  else [])

/-- Names of the dynamic symbols, in insertion order. -/
def dynsymNames (cfg : Config) : List (List Char) :=
  (requiredSymbols cfg).map (·.name)

/-- The basename computation of `ElfBuilder::Init`: everything after the
final `/` of the output path (the whole path when it has no `/`). -/
def basenameOf (p : List Char) : List Char :=
  p.foldl (fun acc c => if c = '/' then [] else acc ++ [c]) []

/-- The `.dynstr` contents after `Init` appends the SONAME: the generated
name pool followed by the NUL-terminated basename of the output path. -/
def dynstrOf (cfg : Config) : List Char :=
  generateStrtab (dynsymNames cfg) ++ basenameOf cfg.path ++ [nul]

/-- `dynstr_soname_offset_`: the pool size just before the basename is
appended. -/
def sonameOff (cfg : Config) : Nat :=
  (generateStrtab (dynsymNames cfg)).length

/-- `ElfBuilder::SetupDynamic()`: the four mandatory tags seeded through
`AddDynamicTag`, with `DT_SYMENT = sizeof(Elf_Sym)`. -/
def setupDynamicTags (symSize : Nat) : List DynEntry :=
  addDynamicTag
    (addDynamicTag
      (addDynamicTag
        (addDynamicTag [] DT_HASH 0 (some secHash))
        DT_STRTAB 0 (some secDynstr))
      DT_SYMTAB 0 (some secDynsym))
    DT_SYMENT symSize none

/-- The dynamic entries stored in the builder for a configuration. -/
def setupDynamicEntries (cfg : Config) : List DynEntry :=
  setupDynamicTags cfg.sizes.sym

/-- `PHDR_OFFSET = sizeof(Elf_Ehdr)`. -/
def phdrOffset (cfg : Config) : Nat := cfg.sizes.ehdr

/-- `PHDR_SIZE = sizeof(Elf_Phdr) * PH_NUM` with `PH_NUM = 7`. -/
def phdrTotalSize (cfg : Config) : Nat := 7 * cfg.sizes.phdrEnt

/-- Start of the allocatable layout: `sizeof(Elf_Ehdr) +
sizeof(program_headers_)`. -/
def baseOffset (cfg : Config) : Nat := cfg.sizes.ehdr + phdrTotalSize cfg

/-- Number of `.dynsym` records, counting the null symbol. -/
def dynsymCount (cfg : Config) : Nat := (requiredSymbols cfg).length + 1

/-- File offset of `.dynsym` (aligned to `sizeof(Elf_Word)`). -/
def dynsymOff (cfg : Config) : Nat := roundUp (baseOffset cfg) 4

/-- Byte size of `.dynsym`. -/
def dynsymByteSize (cfg : Config) : Nat := dynsymCount cfg * cfg.sizes.sym

/-- File offset of `.dynstr` (alignment 1). -/
def dynstrOff (cfg : Config) : Nat :=
  roundUp (dynsymOff cfg + dynsymByteSize cfg) 1

/-- File offset of `.hash` (aligned to `sizeof(Elf_Word)`). -/
def hashOff (cfg : Config) : Nat :=
  roundUp (dynstrOff cfg + (dynstrOf cfg).length) 4

/-- Byte size of `.hash`. -/
def hashByteSize (cfg : Config) : Nat :=
  (generateHashContents (dynsymNames cfg)).length * 4

/-- Sequential placement used for raw sections: each starts at its
alignment boundary after the previous end. -/
def layoutRaws : Nat → List RawSec → List (RawSec × Nat)
  | _, [] => []
  | prevEnd, r :: rest =>
    let off := roundUp prevEnd r.align
    (r, off) :: layoutRaws (off + r.bufSize) rest

/-- The registered raw sections bearing `SHF_ALLOC`. -/
def allocRaws (cfg : Config) : List RawSec :=
  cfg.raws.filter (fun r => r.flags &&& SHF_ALLOC != 0)

/-- The registered raw sections without `SHF_ALLOC`. -/
def nonallocRaws (cfg : Config) : List RawSec :=
  cfg.raws.filter (fun r => r.flags &&& SHF_ALLOC == 0)

/-- Offsets of the allocatable raw sections, laid out after `.hash`. -/
def allocRawLay (cfg : Config) : List (RawSec × Nat) :=
  layoutRaws (hashOff cfg + hashByteSize cfg) (allocRaws cfg)

/-- End of the last allocatable raw section (or of `.hash`). -/
def allocRawEnd (cfg : Config) : Nat :=
  match (allocRawLay cfg).getLast? with
  | some (r, off) => off + r.bufSize
  | none => hashOff cfg + hashByteSize cfg

/-- File offset of `.rodata` (page aligned). -/
def rodataOff (cfg : Config) : Nat := roundUp (allocRawEnd cfg) kPageSize

/-- File offset of `.text` (page aligned, directly after `.rodata`). -/
def textOff (cfg : Config) : Nat :=
  roundUp (rodataOff cfg + cfg.rodataSize) kPageSize

/-- File offset of `.bss` (page aligned, after `.text`). -/
def bssOff (cfg : Config) : Nat :=
  roundUp (textOff cfg + cfg.textSize) kPageSize

/-- File offset of `.dynamic`: `.bss` occupies no file bytes, so the
source reuses the `.bss` offset. -/
def dynamicOff (cfg : Config) : Nat := bssOff cfg

/-- Virtual address of `.dynamic`: `NextOffset` past the end of `.bss`
in memory, at `.dynamic`'s page alignment. -/
def dynamicAddr (cfg : Config) : Nat :=
  roundUp (bssOff cfg + cfg.bssSize) kPageSize

/-- Byte size of `.dynamic` (`GetSize() * sizeof(Elf_Dyn)`). -/
def dynamicByteSize (cfg : Config) : Nat :=
  dynGetSize (setupDynamicEntries cfg) * cfg.sizes.dyn

/-- `IncludingDebugSymbols()`: debug symbols requested and present. -/
def includeDebug (cfg : Config) : Bool :=
  cfg.addSymbols && !cfg.symtabSyms.isEmpty

/-- File offset of `.symtab` (after `.dynamic`, word aligned). -/
def symtabOff (cfg : Config) : Nat :=
  roundUp (dynamicOff cfg + dynamicByteSize cfg) 4

/-- Byte size of `.symtab`. -/
def symtabByteSize (cfg : Config) : Nat :=
  (cfg.symtabSyms.length + 1) * cfg.sizes.sym

/-- Byte size of `.strtab`. -/
def strtabByteSize (cfg : Config) : Nat :=
  (generateStrtab (cfg.symtabSyms.map (·.name))).length

/-- File offset of `.strtab` (alignment 1). -/
def strtabOff (cfg : Config) : Nat :=
  roundUp (symtabOff cfg + symtabByteSize cfg) 1

/-- End of the layout before the non-allocatable raw sections: after
`.strtab` when debug symbols are included, else after `.dynamic`. -/
def nonallocStart (cfg : Config) : Nat :=
  if includeDebug cfg then strtabOff cfg + strtabByteSize cfg
  else dynamicOff cfg + dynamicByteSize cfg

/-- Offsets of the non-allocatable raw sections. -/
def nonallocRawLay (cfg : Config) : List (RawSec × Nat) :=
  layoutRaws (nonallocStart cfg) (nonallocRaws cfg)

/-- End of the last non-allocatable raw section (or its start point). -/
def nonallocRawEnd (cfg : Config) : Nat :=
  match (nonallocRawLay cfg).getLast? with
  | some (r, off) => off + r.bufSize
  | none => nonallocStart cfg

/-- File offset of `.shstrtab` (alignment 1). -/
def shstrtabOff (cfg : Config) : Nat := roundUp (nonallocRawEnd cfg) 1

/-- Section names appended to the section-header string table, in
`AssignSectionStr` call order across `Init` and `Write`. -/
def shstrtabNames (cfg : Config) : List String :=
  [".dynsym", ".dynstr", ".hash", ".rodata", ".text"]
  ++ (if cfg.bssSize ≠ 0 then [".bss"] else [])
  ++ [".dynamic"]
  ++ (if includeDebug cfg then [".symtab", ".strtab"] else [])
  ++ cfg.raws.map (·.name)
  ++ [".shstrtab"]

/-- Byte size of `.shstrtab`: leading NUL plus each NUL-terminated name. -/
def shstrtabByteSize (cfg : Config) : Nat :=
  1 + ((shstrtabNames cfg).map (fun s => s.length + 1)).sum

/-- `sections_offset`: the section-header table comes after `.shstrtab`,
aligned to `sizeof(Elf_Word)`. -/
def sectionsOffset (cfg : Config) : Nat :=
  roundUp (shstrtabOff cfg + shstrtabByteSize cfg) 4

/-- A section-header record as it ends up in the section table, together
with the section's name for identification. -/
structure Shdr where
  name : String
  ty : Nat
  flags : Nat
  addr : Nat
  off : Nat
  size : Nat
  align : Nat
deriving Repr, DecidableEq

/-- The null header at section index 0. -/
def nullShdr : Shdr := ⟨"", SHT_NULL, 0, 0, 0, 0, 0⟩

/-- Final header of `.dynsym`. -/
def dynsymShdr (cfg : Config) : Shdr :=
  ⟨".dynsym", SHT_DYNSYM, SHF_ALLOC, dynsymOff cfg, dynsymOff cfg, dynsymByteSize cfg, 4⟩

/-- Final header of `.dynstr`. -/
def dynstrShdr (cfg : Config) : Shdr :=
  ⟨".dynstr", SHT_STRTAB, SHF_ALLOC, dynstrOff cfg, dynstrOff cfg, (dynstrOf cfg).length, 1⟩

/-- Final header of `.hash`. -/
def hashShdr (cfg : Config) : Shdr :=
  ⟨".hash", SHT_HASH, SHF_ALLOC, hashOff cfg, hashOff cfg, hashByteSize cfg, 4⟩

/-- Final header of `.rodata`. -/
def rodataShdr (cfg : Config) : Shdr :=
  ⟨".rodata", SHT_PROGBITS, SHF_ALLOC, rodataOff cfg, rodataOff cfg, cfg.rodataSize, kPageSize⟩

/-- Final header of `.text`. -/
def textShdr (cfg : Config) : Shdr :=
  ⟨".text", SHT_PROGBITS, SHF_ALLOC ||| SHF_EXECINSTR, textOff cfg, textOff cfg,
   cfg.textSize, kPageSize⟩

/-- Final header of `.bss`. -/
def bssShdr (cfg : Config) : Shdr :=
  ⟨".bss", SHT_NOBITS, SHF_ALLOC, bssOff cfg, bssOff cfg, cfg.bssSize, kPageSize⟩

/-- Final header of `.dynamic`; the flag expression `SHF_ALLOC |
SHF_ALLOC` is the constructor's, verbatim, and the virtual address
deliberately differs from the file offset. -/
def dynamicShdr (cfg : Config) : Shdr :=
  ⟨".dynamic", SHT_DYNAMIC, SHF_ALLOC ||| SHF_ALLOC, dynamicAddr cfg, dynamicOff cfg,
   dynamicByteSize cfg, kPageSize⟩

/-- Final header of `.symtab`. -/
def symtabShdr (cfg : Config) : Shdr :=
  ⟨".symtab", SHT_SYMTAB, 0, 0, symtabOff cfg, symtabByteSize cfg, 4⟩

/-- Final header of `.strtab`. -/
def strtabShdr (cfg : Config) : Shdr :=
  ⟨".strtab", SHT_STRTAB, 0, 0, strtabOff cfg, strtabByteSize cfg, 1⟩

/-- Final header of `.shstrtab`. -/
def shstrtabShdr (cfg : Config) : Shdr :=
  ⟨".shstrtab", SHT_STRTAB, 0, 0, shstrtabOff cfg, shstrtabByteSize cfg, 1⟩

/-- Headers of the raw sections in registration order, drawing each
offset from the allocatable (Init) or non-allocatable (Write) chain;
allocatable ones get `sh_addr = sh_offset`, the others `sh_addr = 0`. -/
def mixRaws : List (RawSec × Nat) → List (RawSec × Nat) → List RawSec → List Shdr
  | _, _, [] => []
  | aLay, nLay, r :: rest =>
    if r.flags &&& SHF_ALLOC != 0 then
      match aLay with
      | (_, off) :: aRest =>
        ⟨r.name, r.ty, r.flags, off, off, r.bufSize, r.align⟩ :: mixRaws aRest nLay rest
      | [] => []
    else
      match nLay with
      | (_, off) :: nRest =>
        ⟨r.name, r.ty, r.flags, 0, off, r.bufSize, r.align⟩ :: mixRaws aLay nRest rest
      | [] => []

/-- Headers of all registered raw sections, in registration order. -/
def rawShdrs (cfg : Config) : List Shdr :=
  mixRaws (allocRawLay cfg) (nonallocRawLay cfg) cfg.raws

/-- The final section table, in `section_ptrs_` order. -/
def sectionTable (cfg : Config) : List Shdr :=
  [nullShdr, dynsymShdr cfg, dynstrShdr cfg, hashShdr cfg, rodataShdr cfg, textShdr cfg]
  ++ (if cfg.bssSize ≠ 0 then [bssShdr cfg] else [])
  ++ [dynamicShdr cfg]
  ++ (if includeDebug cfg then [symtabShdr cfg, strtabShdr cfg] else [])
  ++ rawShdrs cfg
  ++ [shstrtabShdr cfg]

/-- `FindRawSection(name)`: the first registered raw section with the
given name (looked up on the final headers). -/
def findRaw (cfg : Config) (s : String) : Option Shdr :=
  (rawShdrs cfg).find? (fun h => h.name == s)

/-- A program-header record. -/
structure Phdr where
  ty : Nat
  off : Nat
  vaddr : Nat
  paddr : Nat
  filesz : Nat
  memsz : Nat
  flags : Nat
  align : Nat
deriving Repr, DecidableEq

/-- The seven-slot `program_headers_` array as completed by `Write`, in
positional order PHDR, LOAD-R, LOAD-RX, LOAD-RW-BSS, LOAD-RW-DYNAMIC,
DYNAMIC, EH-FRAME-HDR. -/
def phdrs (cfg : Config) : List Phdr :=
  [⟨PT_PHDR, phdrOffset cfg, phdrOffset cfg, phdrOffset cfg,
    phdrTotalSize cfg, phdrTotalSize cfg, PF_R, 4⟩,
   ⟨PT_LOAD, 0, 0, 0, rodataOff cfg + cfg.rodataSize, rodataOff cfg + cfg.rodataSize,
    PF_R, kPageSize⟩,
   ⟨PT_LOAD, textOff cfg, textOff cfg, textOff cfg, cfg.textSize, cfg.textSize,
    PF_R ||| PF_X, kPageSize⟩,
   ⟨PT_LOAD, bssOff cfg, bssOff cfg, bssOff cfg, 0, cfg.bssSize,
    PF_R ||| PF_W, kPageSize⟩,
   ⟨PT_LOAD, dynamicOff cfg, dynamicAddr cfg, dynamicAddr cfg,
    dynamicByteSize cfg, dynamicByteSize cfg, PF_R ||| PF_W, kPageSize⟩,
   ⟨PT_DYNAMIC, dynamicOff cfg, dynamicAddr cfg, dynamicAddr cfg,
    dynamicByteSize cfg, dynamicByteSize cfg, PF_R ||| PF_W, kPageSize⟩]
  ++ [match findRaw cfg ".eh_frame_hdr" with
      | some hdr => ⟨PT_GNU_EH_FRAME, hdr.off, hdr.addr, hdr.addr, hdr.size, hdr.size,
                     PF_R, hdr.align⟩
      | none => ⟨PT_NULL, 0, 0, 0, 0, 0, PF_R, 0⟩]

/-- `e_phnum`: `PH_NUM` when the `.bss` header has a non-zero size, else
`PH_NUM - 1`. -/
def ephnum (cfg : Config) : Nat :=
  if (bssShdr cfg).size ≠ 0 then 7 else 6

/-- The file pieces covering the program headers: one piece for the whole
array when `.bss` is present, otherwise two pieces that skip the
`PH_LOAD_RW_BSS` slot (index 3) and pack the rest contiguously. Each
piece carries its file offset and the header slots it writes. -/
def phdrFilePieces (cfg : Config) : List (Nat × List Phdr) :=
  if (bssShdr cfg).size ≠ 0 then
    [(phdrOffset cfg, phdrs cfg)]
  else
    [(phdrOffset cfg, (phdrs cfg).take 3),
     (phdrOffset cfg + 3 * cfg.sizes.phdrEnt, (phdrs cfg).drop 4)]

/-- A scheduled file piece (description and file offset). -/
structure Piece where
  name : String
  off : Nat
deriving Repr, DecidableEq

/-- The piece list built by `ElfBuilder::Write`, in construction order:
header, program headers, `.dynamic`, `.dynsym`, `.dynstr`, `.hash`, the
producer-driven `.rodata` piece, the no-op `.text` piece, optional
`.symtab`/`.strtab`, `.shstrtab`, one piece per section-header entry, and
finally every raw section. -/
def pieces (cfg : Config) : List Piece :=
  [⟨"Elf Header", 0⟩]
  ++ (if (bssShdr cfg).size ≠ 0 then
        [⟨"Program headers", phdrOffset cfg⟩]
      else
        [⟨"Program headers", phdrOffset cfg⟩,
         ⟨"Program headers part 2", phdrOffset cfg + 3 * cfg.sizes.phdrEnt⟩])
  ++ [⟨".dynamic", dynamicOff cfg⟩, ⟨".dynsym", dynsymOff cfg⟩,
      ⟨".dynstr", dynstrOff cfg⟩, ⟨".hash", hashOff cfg⟩,
      ⟨".rodata", rodataOff cfg⟩, ⟨".text", textOff cfg⟩]
  ++ (if includeDebug cfg then
        [⟨".symtab", symtabOff cfg⟩, ⟨".strtab", strtabOff cfg⟩]
      else [])
  ++ [⟨".shstrtab", shstrtabOff cfg⟩]
  ++ (List.range (sectionTable cfg).length).map
       (fun i => ⟨"section table piece", sectionsOffset cfg + i * cfg.sizes.shdr⟩)
  ++ (rawShdrs cfg).map (fun s => ⟨s.name, s.off⟩)

/-- Result of the two file operations a piece performs: the seek to its
offset and the full write of its bytes. -/
inductive Outcome
  | ok
  | seekFail
  | writeFail
deriving Repr, DecidableEq

/-- `WriteOutFile`: process the pieces in list order; each piece seeks
and writes, and the first failure aborts with `false`.  The second
component records the pieces written, in order. -/
def commit (io : Piece → Outcome) : List Piece → Bool × List Piece
  | [] => (true, [])
  | p :: rest =>
    match io p with
    | .ok =>
      let r := commit io rest
      (r.1, p :: r.2)
    | _ => (false, [])

/-- The latched `fatal_error_` flag: set exactly when `SetISA` hits its
default branch. -/
def fatalError (cfg : Config) : Bool := (setISA cfg.isa).isNone

/-- `ElfBuilder::Init` checks the fatal flag before doing anything. -/
def initOk (cfg : Config) : Bool := !fatalError cfg

/-- `ElfBuilder::Write` does not consult the fatal flag: its return value
is that of `WriteOutFile` over the scheduled pieces. -/
def writeReturn (cfg : Config) (io : Piece → Outcome) : Bool :=
  (commit io (pieces cfg)).1

/-- The `CHECK` conditions of `Init` and `Write` that a successful
emission passes: supported ISA, page-aligned `.rodata` end, and the
`.eh_frame` / `.eh_frame_hdr` pairing when the latter is registered. -/
def emissionOk (cfg : Config) : Bool :=
  (setISA cfg.isa).isSome
  && (rodataOff cfg + cfg.rodataSize) % kPageSize == 0
  && (match findRaw cfg ".eh_frame_hdr" with
      | none => true
      | some hdr =>
        match findRaw cfg ".eh_frame" with
        | none => false
        | some ef => ef.off ≤ hdr.off && ef.off + ef.size == hdr.off)

/-- Map from section handles to the `sh_addr` each referenced section has
after `Init` laid the allocatable sections out. -/
def secAddrOf (cfg : Config) : Nat → Nat := fun s =>
  if s = secRodata then rodataOff cfg
  else if s = secText then textOff cfg
  else if s = secBss then bssOff cfg
  else if s = secDynsym then dynsymOff cfg
  else if s = secDynstr then dynstrOff cfg
  else if s = secHash then hashOff cfg
  else 0

/-- The `.dynamic` vector materialised during `Write`:
`GetDynamics(dynstr_.size(), dynstr_soname_offset_)`. -/
def materializedDynamic (cfg : Config) : List (Nat × Nat) :=
  getDynamics (secAddrOf cfg) (setupDynamicEntries cfg) (dynstrOf cfg).length (sonameOff cfg)

/-- Sample configuration mirroring scenario S1: ELF64, ARM64, 4 KiB of
`.rodata`, 8 KiB of `.text`, no `.bss`, no raw sections, no debug
symbols. -/
def cfgNoBss : Config :=
  ⟨elf64Sizes, .kArm64, "a/b.so".data, 4096, 8192, 0, [], false, []⟩

/-- Sample configuration mirroring scenario S2: ELF64, x86-64, 4 KiB
each of `.rodata`, `.text` and `.bss`. -/
def cfgBss : Config :=
  ⟨elf64Sizes, .kX86_64, "a/b.so".data, 4096, 4096, 4096, [], false, []⟩

/-- Sample configuration whose instruction set hits `SetISA`'s default
branch. -/
def cfgBadIsa : Config :=
  ⟨elf64Sizes, .kNone, "a/b.so".data, 4096, 8192, 0, [], false, []⟩

/-- Unfolding lemma for a wrapped 32-bit subtraction of 4 on an in-range
operand that is at least 4. -/
theorem w32sub_four {a : Nat} (h4 : 4 ≤ a) (hw : a < 2 ^ 32) :
    w32sub a 4 = a - 4 := by
  have hp : (2 : Nat) ^ 32 = 4294967296 := by norm_num
  unfold w32sub
  rw [hp] at hw ⊢
  omega

/-- A fully successful run of `WriteOutFile` reports success. -/
theorem commit_fst_allOk (l : List Piece) :
    (commit (fun _ => Outcome.ok) l).1 = true := by
  induction l with
  | nil => rfl
  | cons p rest ih => simpa [commit] using ih

/-- A fully successful run of `WriteOutFile` writes every scheduled piece
in scheduling order. -/
theorem commit_snd_allOk (l : List Piece) :
    (commit (fun _ => Outcome.ok) l).2 = l := by
  induction l with
  | nil => rfl
  | cons p rest ih => simpa [commit] using ih

/-- C10: the `.dynamic` section is always constructed with `sh_flags`
equal to `SHF_ALLOC` alone (the constructor's expression `SHF_ALLOC |
SHF_ALLOC` collapses to `SHF_ALLOC`), so its emitted section header does
not carry `SHF_WRITE`, even though the LOAD-RW-DYNAMIC program header
covering `.dynamic` is readable and writable. -/
theorem c10_dynamic_flags_alloc_only (cfg : Config) :
    (dynamicShdr cfg).flags = SHF_ALLOC ∧
    (dynamicShdr cfg).flags &&& SHF_WRITE = 0 ∧
    (phdrs cfg)[4]? = some ⟨PT_LOAD, dynamicOff cfg, dynamicAddr cfg, dynamicAddr cfg,
      dynamicByteSize cfg, dynamicByteSize cfg, PF_R ||| PF_W, kPageSize⟩ ∧
    (PF_R ||| PF_W) &&& PF_W ≠ 0 := by
  refine ⟨?_, ?_, rfl, by decide⟩
  · show SHF_ALLOC ||| SHF_ALLOC = SHF_ALLOC
    decide
  · show (SHF_ALLOC ||| SHF_ALLOC) &&& SHF_WRITE = 0
    decide

/-- C8: the constructor's `SetupRequiredSymbols` adds `oatdata` (relative
to `.rodata`, offset 0, sized like `.rodata`), `oatexec` (relative to
`.text`, offset 0, sized like `.text`) and `oatlastword` (relative to
`.text` at `text_size - 4`, size 4), and adds `oatbss`/`oatbsslastword`
(relative to `.bss`, offsets 0 and `bss_size - 4`, sizes `bss_size` and
4) exactly when the `.bss` size is non-zero; all are relative,
`STB_GLOBAL`, `STT_OBJECT`. -/
theorem c8_required_dynsym_entries (cfg : Config)
    (ht : 4 ≤ cfg.textSize) (htw : cfg.textSize < 2 ^ 32)
    (hb : cfg.bssSize ≠ 0 → 4 ≤ cfg.bssSize) (hbw : cfg.bssSize < 2 ^ 32) :
    requiredSymbols cfg =
      [⟨"oatdata".data, secRodata, 0, true, cfg.rodataSize, STB_GLOBAL, STT_OBJECT, 0⟩,
       ⟨"oatexec".data, secText, 0, true, cfg.textSize, STB_GLOBAL, STT_OBJECT, 0⟩,
       ⟨"oatlastword".data, secText, cfg.textSize - 4, true, 4, STB_GLOBAL, STT_OBJECT, 0⟩]
      ++ (if cfg.bssSize ≠ 0 then
       [⟨"oatbss".data, secBss, 0, true, cfg.bssSize, STB_GLOBAL, STT_OBJECT, 0⟩,
        ⟨"oatbsslastword".data, secBss, cfg.bssSize - 4, true, 4, STB_GLOBAL, STT_OBJECT, 0⟩]
      else []) := by
  unfold requiredSymbols
  rw [w32sub_four ht htw]
  by_cases h : cfg.bssSize ≠ 0
  · rw [w32sub_four (hb h) hbw]
  · simp [h]

/-- Closed instance of the C8 theorem at the sample `.bss`-bearing
configuration. -/
theorem c8_required_dynsym_entries_witness :
    requiredSymbols cfgBss =
      [⟨"oatdata".data, secRodata, 0, true, cfgBss.rodataSize, STB_GLOBAL, STT_OBJECT, 0⟩,
       ⟨"oatexec".data, secText, 0, true, cfgBss.textSize, STB_GLOBAL, STT_OBJECT, 0⟩,
       ⟨"oatlastword".data, secText, cfgBss.textSize - 4, true, 4, STB_GLOBAL, STT_OBJECT, 0⟩]
      ++ (if cfgBss.bssSize ≠ 0 then
       [⟨"oatbss".data, secBss, 0, true, cfgBss.bssSize, STB_GLOBAL, STT_OBJECT, 0⟩,
        ⟨"oatbsslastword".data, secBss, cfgBss.bssSize - 4, true, 4, STB_GLOBAL, STT_OBJECT, 0⟩]
      else []) :=
  c8_required_dynsym_entries cfgBss (by decide) (by decide)
    (fun _ => by decide) (by decide)

/-- C3: `e_phnum` is 7 exactly when the configured `.bss` size is
non-zero and 6 otherwise, and in the 6-header case the program-header
bytes are scheduled as two pieces that skip slot `PH_LOAD_RW_BSS` (index
3) and place the remaining headers contiguously after the first three. -/
theorem c3_phnum_and_phdr_pieces (cfg : Config) :
    (ephnum cfg = 7 ↔ cfg.bssSize ≠ 0) ∧
    (cfg.bssSize = 0 → ephnum cfg = 6) ∧
    (cfg.bssSize = 0 →
      phdrFilePieces cfg =
        [(phdrOffset cfg, (phdrs cfg).take 3),
         (phdrOffset cfg + ((phdrs cfg).take 3).length * cfg.sizes.phdrEnt,
          (phdrs cfg).drop 4)] ∧
      (phdrs cfg).take 3 ++ (phdrs cfg).drop 4 = (phdrs cfg).eraseIdx 3) ∧
    (cfg.bssSize ≠ 0 → phdrFilePieces cfg = [(phdrOffset cfg, phdrs cfg)]) := by
  have hlen : ((phdrs cfg).take 3).length = 3 := by
    simp [phdrs]
  have herase : (phdrs cfg).take 3 ++ (phdrs cfg).drop 4 = (phdrs cfg).eraseIdx 3 := by
    rw [List.eraseIdx_eq_take_drop_succ]
  by_cases h : cfg.bssSize = 0
  · refine ⟨by simp [ephnum, bssShdr, h], fun _ => by simp [ephnum, bssShdr, h], fun _ => ?_,
      fun hne => absurd h hne⟩
    refine ⟨?_, herase⟩
    rw [hlen]
    simp [phdrFilePieces, bssShdr, h]
  · refine ⟨by simp [ephnum, bssShdr, h], fun h0 => absurd h0 h, fun h0 => absurd h0 h,
      fun _ => by simp [phdrFilePieces, bssShdr, h]⟩

/-- C7 (amended): an unsupported instruction set latches the fatal flag
during configuration, and every subsequent `Init` call performs no work
and returns failure — but `Write` does not consult the flag: with all
piece writes succeeding it still returns success. -/
theorem c7_fatal_flag_init_only (cfg : Config) (h : setISA cfg.isa = none) :
    fatalError cfg = true ∧ initOk cfg = false ∧
    writeReturn cfg (fun _ => Outcome.ok) = true := by
  refine ⟨by simp [fatalError, h], by simp [initOk, fatalError, h], commit_fst_allOk _⟩

/-- Closed instance of the amended C7 theorem at the unsupported-ISA
sample configuration. -/
theorem c7_fatal_flag_init_only_witness :
    fatalError cfgBadIsa = true ∧ initOk cfgBadIsa = false ∧
    writeReturn cfgBadIsa (fun _ => Outcome.ok) = true :=
  c7_fatal_flag_init_only cfgBadIsa rfl

/-- C7 counterexample: with the fatal flag latched by an unsupported
instruction set, `Write` still performs its file writes (the written
piece list is the full non-empty schedule) and returns success, contrary
to the claim that it performs no writes and returns failure. -/
theorem c7_counterexample_write_ignores_fatal :
    fatalError cfgBadIsa = true ∧
    writeReturn cfgBadIsa (fun _ => Outcome.ok) = true ∧
    (commit (fun _ => Outcome.ok) (pieces cfgBadIsa)).2 = pieces cfgBadIsa ∧
    pieces cfgBadIsa ≠ [] := by
  refine ⟨rfl, commit_fst_allOk _, commit_snd_allOk _, ?_⟩
  simp [pieces]

/-- Folding the basename accumulator over slash-free input appends it. -/
theorem basename_foldl_no_slash (ys : List Char) :
    ∀ acc, '/' ∉ ys →
      ys.foldl (fun acc c => if c = '/' then [] else acc ++ [c]) acc = acc ++ ys := by
  induction ys with
  | nil => intro acc _; simp
  | cons c rest ih =>
    intro acc h
    have hc : ¬ c = '/' := fun hc => h (hc ▸ List.mem_cons_self c rest)
    have hrest : '/' ∉ rest := fun hm => h (List.mem_cons_of_mem c hm)
    simp only [List.foldl_cons, if_neg hc, ih (acc ++ [c]) hrest, List.append_assoc,
      List.singleton_append]

/-- The basename of a slash-free path is the path itself. -/
theorem basenameOf_no_slash (ys : List Char) (h : '/' ∉ ys) : basenameOf ys = ys := by
  unfold basenameOf
  rw [basename_foldl_no_slash ys [] h]
  simp

/-- The basename computation discards everything up to the last slash. -/
theorem basenameOf_append_slash (xs ys : List Char) :
    basenameOf (xs ++ '/' :: ys) = basenameOf ys := by
  unfold basenameOf
  have : xs ++ '/' :: ys = (xs ++ ['/']) ++ ys := by simp
  rw [this, List.foldl_append, List.foldl_append]
  simp

/-- C9: the SONAME string appended to `.dynstr` during `Init` is the
NUL-terminated basename of the output path — the substring after the
final `/`, or the whole path without one — placed immediately after the
symbol-name pool, and the `DT_SONAME` entry of the materialised dynamic
vector carries exactly that offset. -/
theorem c9_soname_basename (cfg : Config) (ys0 xs1 : List Char) (h0 : '/' ∉ ys0)
    (ys1 : List Char) :
    sonameOff cfg = (generateStrtab (dynsymNames cfg)).length ∧
    dynstrOf cfg = generateStrtab (dynsymNames cfg) ++ (basenameOf cfg.path ++ [nul]) ∧
    (dynstrOf cfg).drop (sonameOff cfg) = basenameOf cfg.path ++ [nul] ∧
    (materializedDynamic cfg)[5]? = some (DT_SONAME, sonameOff cfg) ∧
    basenameOf ys0 = ys0 ∧
    basenameOf (xs1 ++ '/' :: ys1) = basenameOf ys1 := by
  refine ⟨rfl, by simp [dynstrOf], ?_, rfl, basenameOf_no_slash ys0 h0,
    basenameOf_append_slash xs1 ys1⟩
  have : dynstrOf cfg = generateStrtab (dynsymNames cfg) ++ (basenameOf cfg.path ++ [nul]) := by
    simp [dynstrOf]
  rw [this, sonameOff, List.drop_left]

/-- Closed instance of the C9 theorem on the S5 path shape. -/
theorem c9_soname_basename_witness :
    sonameOff cfgNoBss = (generateStrtab (dynsymNames cfgNoBss)).length ∧
    dynstrOf cfgNoBss
      = generateStrtab (dynsymNames cfgNoBss) ++ (basenameOf cfgNoBss.path ++ [nul]) ∧
    (dynstrOf cfgNoBss).drop (sonameOff cfgNoBss) = basenameOf cfgNoBss.path ++ [nul] ∧
    (materializedDynamic cfgNoBss)[5]? = some (DT_SONAME, sonameOff cfgNoBss) ∧
    basenameOf "bar.oat".data = "bar.oat".data ∧
    basenameOf ("/tmp/foo".data ++ '/' :: "bar.oat".data) = basenameOf "bar.oat".data :=
  c9_soname_basename cfgNoBss "bar.oat".data "/tmp/foo".data (by decide) "bar.oat".data

/-- Folding `AddDynamicTag` over a list of requests appends exactly the
requests whose tag is not `DT_NULL`. -/
theorem foldl_addDynamicTag (l : List (Nat × Nat × Option Nat)) :
    ∀ acc : List DynEntry,
      l.foldl (fun s tv => addDynamicTag s tv.1 tv.2.1 tv.2.2) acc
      = acc ++ (l.filter (fun tv => tv.1 != DT_NULL)).map (fun tv => ⟨tv.2.2, tv.1, tv.2.1⟩) := by
  induction l with
  | nil => intro acc; simp
  | cons tv rest ih =>
    intro acc
    by_cases h : tv.1 = DT_NULL
    · have ha : addDynamicTag acc tv.1 tv.2.1 tv.2.2 = acc := by
        simp [addDynamicTag, h]
      simp only [List.foldl_cons, ha, ih, List.filter_cons]
      simp [h]
    · have ha : addDynamicTag acc tv.1 tv.2.1 tv.2.2 = acc ++ [⟨tv.2.2, tv.1, tv.2.1⟩] := by
        simp [addDynamicTag, h]
      simp only [List.foldl_cons, ha, ih, List.filter_cons]
      simp [h, List.append_assoc]

/-- C5: the materialised dynamic vector is `DT_HASH`, `DT_STRTAB`,
`DT_SYMTAB`, `DT_SYMENT` — each section-attached entry rebased by its
section's `sh_addr` — then the accepted caller tags in insertion order,
then `DT_STRSZ` (the `.dynstr` size), `DT_SONAME` and a final `DT_NULL`;
`AddDynamicTag` silently drops a caller-supplied `DT_NULL`, and the
vector's length is the stored tag count plus 3. -/
theorem c5_dynamic_vector (addrOf : Nat → Nat) (symSize strsz soname : Nat)
    (userTags : List (Nat × Nat × Option Nat)) (cfg : Config) :
    getDynamics addrOf
        (userTags.foldl (fun s tv => addDynamicTag s tv.1 tv.2.1 tv.2.2)
          (setupDynamicTags symSize)) strsz soname
      = [(DT_HASH, addrOf secHash), (DT_STRTAB, addrOf secDynstr),
         (DT_SYMTAB, addrOf secDynsym), (DT_SYMENT, symSize)]
        ++ (userTags.filter (fun tv => tv.1 != DT_NULL)).map
             (fun tv => match tv.2.2 with
               | some s => (tv.1, tv.2.1 + addrOf s)
               | none => (tv.1, tv.2.1))
        ++ [(DT_STRSZ, strsz), (DT_SONAME, soname), (DT_NULL, 0)] ∧
    (getDynamics addrOf
        (userTags.foldl (fun s tv => addDynamicTag s tv.1 tv.2.1 tv.2.2)
          (setupDynamicTags symSize)) strsz soname).length
      = (userTags.foldl (fun s tv => addDynamicTag s tv.1 tv.2.1 tv.2.2)
          (setupDynamicTags symSize)).length + 3 ∧
    (userTags.foldl (fun s tv => addDynamicTag s tv.1 tv.2.1 tv.2.2)
        (setupDynamicTags symSize)).length
      = 4 + (userTags.filter (fun tv => tv.1 != DT_NULL)).length ∧
    (∀ v sec, addDynamicTag
        (userTags.foldl (fun s tv => addDynamicTag s tv.1 tv.2.1 tv.2.2)
          (setupDynamicTags symSize)) DT_NULL v sec
      = userTags.foldl (fun s tv => addDynamicTag s tv.1 tv.2.1 tv.2.2)
          (setupDynamicTags symSize)) ∧
    materializedDynamic cfg
      = [(DT_HASH, hashOff cfg), (DT_STRTAB, dynstrOff cfg), (DT_SYMTAB, dynsymOff cfg),
         (DT_SYMENT, cfg.sizes.sym), (DT_STRSZ, (dynstrOf cfg).length),
         (DT_SONAME, sonameOff cfg), (DT_NULL, 0)] := by
  rw [foldl_addDynamicTag]
  refine ⟨?_, ?_, ?_, fun v sec => by simp [addDynamicTag, DT_NULL], ?_⟩
  · simp only [getDynamics, List.map_append, List.append_assoc]
    congr 1
    · simp [setupDynamicTags, addDynamicTag, DT_HASH, DT_STRTAB, DT_SYMTAB, DT_SYMENT, DT_NULL]
    congr 1
    rw [List.map_map]
    apply List.map_congr_left
    intro tv _
    cases htv : tv.2.2 <;> simp [htv]
  · simp [getDynamics]
    omega
  · simp only [List.length_append, List.length_map,
      setupDynamicTags, addDynamicTag, DT_HASH, DT_STRTAB, DT_SYMTAB, DT_SYMENT, DT_NULL]
    norm_num
  · simp [materializedDynamic, getDynamics, setupDynamicEntries, setupDynamicTags,
      addDynamicTag, DT_HASH, DT_STRTAB, DT_SYMTAB, DT_SYMENT, DT_NULL, secAddrOf,
      secHash, secDynstr, secDynsym, secRodata, secText, secBss]

/-- Success of `WriteOutFile` is equivalent to every scheduled piece's
seek and write succeeding. -/
theorem commit_fst_iff (io : Piece → Outcome) (l : List Piece) :
    (commit io l).1 = true ↔ ∀ p ∈ l, io p = Outcome.ok := by
  induction l with
  | nil => simp [commit]
  | cons p rest ih =>
    cases h : io p with
    | ok => simp [commit, h, ih]
    | seekFail => simp [commit, h]
    | writeFail => simp [commit, h]

/-- Every piece recorded as written had a successful seek and write. -/
theorem commit_snd_ok (io : Piece → Outcome) (l : List Piece) :
    ∀ p ∈ (commit io l).2, io p = Outcome.ok := by
  induction l with
  | nil => simp [commit]
  | cons p rest ih =>
    cases h : io p with
    | ok =>
      intro q hq
      simp only [commit, h] at hq
      rcases List.mem_cons.1 hq with rfl | hq
      · exact h
      · exact ih q hq
    | seekFail => simp [commit, h]
    | writeFail => simp [commit, h]

/-- C6 (amended): `Write` commits the file pieces in the order they were
scheduled — there is no sort — seeking to each piece's offset and
writing it; it returns success exactly when every piece's seek and write
succeed, so any seek failure or short write makes it return failure. -/
theorem c6_commit_in_schedule_order (cfg : Config) (io : Piece → Outcome) :
    (writeReturn cfg io = true ↔ ∀ p ∈ pieces cfg, io p = Outcome.ok) ∧
    (commit (fun _ => Outcome.ok) (pieces cfg)).2 = pieces cfg ∧
    (∀ p ∈ (commit io (pieces cfg)).2, io p = Outcome.ok) :=
  ⟨commit_fst_iff io _, commit_snd_allOk _, commit_snd_ok io _⟩

/-- C6 counterexample: on a successful emission the write order — the
schedule order — is not ascending in file offset (the `.dynamic` piece
is scheduled before `.dynsym`, which sits lower in the file), so the
pieces are not sorted by offset before committing. -/
theorem c6_counterexample_not_sorted :
    emissionOk cfgNoBss = true ∧
    ¬ List.Pairwise (· ≤ ·)
        (((commit (fun _ => Outcome.ok) (pieces cfgNoBss)).2).map Piece.off) := by
  refine ⟨by decide, ?_⟩
  rw [commit_snd_allOk]
  decide

/-- A raw-section header that carries `SHF_ALLOC` was laid out in the
`Init` chain, which sets its address equal to its offset. -/
theorem mixRaws_alloc_addr_eq_off :
    ∀ (rs : List RawSec) (aLay nLay : List (RawSec × Nat)) (s : Shdr),
      s ∈ mixRaws aLay nLay rs → s.flags &&& SHF_ALLOC ≠ 0 → s.addr = s.off := by
  intro rs
  induction rs with
  | nil =>
    intro aLay nLay s hs
    simp [mixRaws] at hs
  | cons r rest ih =>
    intro aLay nLay s hs hflag
    by_cases h : (r.flags &&& SHF_ALLOC != 0) = true
    · rcases aLay with _ | ⟨⟨p, off⟩, aRest⟩
      · simp [mixRaws, h] at hs
      · simp only [mixRaws, h, if_pos] at hs
        rcases List.mem_cons.1 hs with rfl | hs
        · rfl
        · exact ih aRest nLay s hs hflag
    · rcases nLay with _ | ⟨⟨p, off⟩, nRest⟩
      · simp [mixRaws, h] at hs
      · simp only [mixRaws, h, if_neg] at hs
        rcases List.mem_cons.1 hs with rfl | hs
        · exact absurd (by simpa using h) hflag
        · exact ih aLay nRest s hs hflag

/-- Rounding a page-aligned value bumped by `b` returns to that value
exactly when `b` is zero. -/
theorem roundUp_page_add_iff (x b : Nat) :
    roundUp (roundUp x kPageSize + b) kPageSize = roundUp x kPageSize ↔ b = 0 := by
  unfold roundUp kPageSize
  omega

/-- C2 (amended): on every successful emission, every allocatable
section other than `.dynamic` has its virtual address equal to its file
offset, while `.dynamic` — whose address is rounded past the end of
`.bss` — satisfies the equality exactly when the configured `.bss` size
is zero. -/
theorem c2_alloc_addr_eq_off (cfg : Config) (he : emissionOk cfg = true) :
    (∀ s ∈ sectionTable cfg, s.flags &&& SHF_ALLOC ≠ 0 →
        s = dynamicShdr cfg ∨ s.addr = s.off) ∧
    ((dynamicShdr cfg).addr = (dynamicShdr cfg).off ↔ cfg.bssSize = 0) := by
  constructor
  · intro s hs hflag
    rw [sectionTable] at hs
    rcases List.mem_append.1 hs with hs1 | hF
    rotate_left
    · rcases List.mem_singleton.1 hF with rfl
      exact absurd (by simp [shstrtabShdr, SHF_ALLOC]) hflag
    rcases List.mem_append.1 hs1 with hs2 | hE
    rotate_left
    · exact Or.inr (mixRaws_alloc_addr_eq_off cfg.raws _ _ s hE hflag)
    rcases List.mem_append.1 hs2 with hs3 | hD
    rotate_left
    · by_cases hd : includeDebug cfg = true
      · rw [if_pos hd] at hD
        rcases List.mem_cons.1 hD with rfl | hD'
        · exact absurd (by simp [symtabShdr, SHF_ALLOC]) hflag
        rcases List.mem_singleton.1 hD' with rfl
        exact absurd (by simp [strtabShdr, SHF_ALLOC]) hflag
      · rw [if_neg hd] at hD
        exact absurd hD (List.not_mem_nil s)
    rcases List.mem_append.1 hs3 with hs4 | hC
    rotate_left
    · rcases List.mem_singleton.1 hC with rfl
      exact Or.inl rfl
    rcases List.mem_append.1 hs4 with hA | hB
    rotate_left
    · by_cases hb : cfg.bssSize ≠ 0
      · rw [if_pos hb] at hB
        rcases List.mem_singleton.1 hB with rfl
        exact Or.inr rfl
      · rw [if_neg hb] at hB
        exact absurd hB (List.not_mem_nil s)
    simp only [List.mem_cons, List.not_mem_nil, or_false] at hA
    rcases hA with rfl | rfl | rfl | rfl | rfl | rfl
    · exact absurd (by simp [nullShdr, SHF_ALLOC]) hflag
    · exact Or.inr rfl
    · exact Or.inr rfl
    · exact Or.inr rfl
    · exact Or.inr rfl
    · exact Or.inr rfl
  · show dynamicAddr cfg = dynamicOff cfg ↔ cfg.bssSize = 0
    unfold dynamicAddr dynamicOff bssOff
    exact roundUp_page_add_iff (textOff cfg + cfg.textSize) cfg.bssSize

/-- Closed instance of the amended C2 theorem at the bss-free sample
configuration. -/
theorem c2_alloc_addr_eq_off_witness :
    (∀ s ∈ sectionTable cfgNoBss, s.flags &&& SHF_ALLOC ≠ 0 →
        s = dynamicShdr cfgNoBss ∨ s.addr = s.off) ∧
    ((dynamicShdr cfgNoBss).addr = (dynamicShdr cfgNoBss).off ↔ cfgNoBss.bssSize = 0) :=
  c2_alloc_addr_eq_off cfgNoBss (by decide)

/-- C2 counterexample: a successful emission with a non-empty `.bss`
carries the allocatable `.dynamic` section with its virtual address
strictly past its file offset. -/
theorem c2_counterexample_dynamic_addr :
    emissionOk cfgBss = true ∧
    dynamicShdr cfgBss ∈ sectionTable cfgBss ∧
    (dynamicShdr cfgBss).flags &&& SHF_ALLOC ≠ 0 ∧
    (dynamicShdr cfgBss).addr ≠ (dynamicShdr cfgBss).off := by
  refine ⟨by decide, by decide, by decide, by decide⟩

set_option maxRecDepth 40000 in
/-- Adding a low nibble to a value with a clear low nibble is the same
as or-ing it in. -/
theorem shl4_add_eq_or : ∀ b < 256, ∀ m < 16, (b <<< 4) + m = (b <<< 4) ||| m := by
  decide

/-- `MakeStInfo` packs binding and type with `+`, which coincides with
the bitwise-or formulation because the type nibble is masked. -/
theorem makeStInfo_or (b ty : Nat) (hb : b < 256) :
    makeStInfo b ty = ((b <<< 4) ||| (ty &&& 0xf)) % 256 := by
  unfold makeStInfo
  rw [shl4_add_eq_or b hb (ty &&& 0xf) (lt_of_le_of_lt Nat.and_le_right (by norm_num))]

/-- C4: `GenerateSymtab` emits the zeroed null symbol (`st_shndx =
SHN_UNDEF`) first, then one record per stored symbol in insertion order
with `st_value = addr + owning_section.sh_offset` when relative and
`addr` otherwise, `st_shndx` the owning section's index, and `st_info =
(binding << 4) | (type & 0xF)`. -/
theorem c4_generate_symtab (secOff secIdx : Nat → Nat) (inputs : List SymInput)
    (hb : ∀ s ∈ inputs, s.binding < 256) :
    (generateSymtab secOff secIdx (inputs.map addSymbol)).head?
      = some ⟨0, 0, 0, 0, 0, SHN_UNDEF⟩ ∧
    nullSym = ⟨0, 0, 0, 0, 0, SHN_UNDEF⟩ ∧
    (generateSymtab secOff secIdx (inputs.map addSymbol)).length = inputs.length + 1 ∧
    ∀ i (hi : i < inputs.length),
      (generateSymtab secOff secIdx (inputs.map addSymbol))[i + 1]?
        = some
          { st_name := 0
            st_value :=
              if inputs[i].isRelative then inputs[i].addr + secOff inputs[i].sec
              else inputs[i].addr
            st_size := inputs[i].size
            st_info := ((inputs[i].binding <<< 4) ||| (inputs[i].ty &&& 0xf)) % 256
            st_other := inputs[i].other
            st_shndx := secIdx inputs[i].sec } := by
  refine ⟨rfl, rfl, by simp [generateSymtab], ?_⟩
  intro i hi
  have hmem : inputs[i] ∈ inputs := List.getElem_mem hi
  simp only [generateSymtab, List.getElem?_cons_succ, List.getElem?_map,
    List.getElem?_eq_getElem hi, Option.map_some]
  simp [addSymbol, makeStInfo_or _ _ (hb _ hmem)]

/-- Closed instance of the C4 theorem on the mandatory symbols of the
`.bss`-bearing sample configuration. -/
theorem c4_generate_symtab_witness :
    (generateSymtab (secAddrOf cfgBss) (fun s => s)
        ((requiredSymbols cfgBss).map addSymbol)).head?
      = some ⟨0, 0, 0, 0, 0, SHN_UNDEF⟩ ∧
    nullSym = ⟨0, 0, 0, 0, 0, SHN_UNDEF⟩ ∧
    (generateSymtab (secAddrOf cfgBss) (fun s => s)
        ((requiredSymbols cfgBss).map addSymbol)).length
      = (requiredSymbols cfgBss).length + 1 ∧
    ∀ i (hi : i < (requiredSymbols cfgBss).length),
      (generateSymtab (secAddrOf cfgBss) (fun s => s)
          ((requiredSymbols cfgBss).map addSymbol))[i + 1]?
        = some
          { st_name := 0
            st_value :=
              if (requiredSymbols cfgBss)[i].isRelative
              then (requiredSymbols cfgBss)[i].addr
                + secAddrOf cfgBss (requiredSymbols cfgBss)[i].sec
              else (requiredSymbols cfgBss)[i].addr
            st_size := (requiredSymbols cfgBss)[i].size
            st_info := (((requiredSymbols cfgBss)[i].binding <<< 4)
              ||| ((requiredSymbols cfgBss)[i].ty &&& 0xf)) % 256
            st_other := (requiredSymbols cfgBss)[i].other
            st_shndx := (requiredSymbols cfgBss)[i].sec } :=
  c4_generate_symtab (secAddrOf cfgBss) (fun s => s) (requiredSymbols cfgBss)
    (by decide)

/-- Writing another cell does not change a `getD` read. -/
theorem getD_set_ne (l : List Nat) (p v j : Nat) (h : j ≠ p) :
    (l.set p v).getD j 0 = l.getD j 0 := by
  simp [List.getD_eq_getElem?_getD, List.getElem?_set_ne (Ne.symm h)]

/-- Reading back an in-range written cell. -/
theorem getD_set_self (l : List Nat) (p v : Nat) (h : p < l.length) :
    (l.set p v).getD p 0 = v := by
  simp [List.getD_eq_getElem?_getD, List.getElem?_set_self h]

/-- Reads of the all-zero array give zero. -/
theorem getD_replicate_zero (n j : Nat) : (List.replicate n 0).getD j 0 = 0 := by
  rcases Nat.lt_or_ge j n with h | h
  · simp [List.getD_eq_getElem?_getD, List.getElem?_replicate, h]
  · rw [List.getD_eq_getElem?_getD, List.getElem?_eq_none (by simpa using h)]
    rfl

/-- The lookup walk started at the undefined index stays there as long
as chain cell 0 is clear. -/
theorem chainStep_zero {chain : List Nat} (h0 : chain.getD 0 0 = 0) (m : Nat) :
    (chainStep chain)^[m] 0 = 0 := by
  induction m with
  | zero => rfl
  | succ m ih =>
    rw [Function.iterate_succ_apply', ih]
    exact h0

/-- A walk that ends in a non-zero index never visits a clear cell on
the way: stepping off a clear cell strands the walk at zero. -/
theorem iterate_ne_of_getD_zero {chain : List Nat} (h0 : chain.getD 0 0 = 0)
    {p : Nat} (hp : chain.getD p 0 = 0) {s i : Nat} (hi : i ≠ 0) {m : Nat}
    (hm : (chainStep chain)^[m] s = i) : ∀ t < m, (chainStep chain)^[t] s ≠ p := by
  intro t ht hcon
  have h1 : (chainStep chain)^[t + 1] s = 0 := by
    rw [Function.iterate_succ_apply', hcon]
    exact hp
  have hsplit : m = (m - (t + 1)) + (t + 1) := by omega
  have h2 : (chainStep chain)^[m] s = 0 := by
    rw [hsplit, Function.iterate_add_apply, h1, chainStep_zero h0]
  rw [hm] at h2
  exact hi h2

/-- Writing into a clear chain cell preserves every walk that reaches a
non-zero index. -/
theorem reaches_set_of_zero {chain : List Nat} (h0 : chain.getD 0 0 = 0)
    {p : Nat} (hp : chain.getD p 0 = 0) (v : Nat) {s i : Nat} (hi : i ≠ 0)
    (h : ∃ m, (chainStep chain)^[m] s = i) :
    ∃ m, (chainStep (chain.set p v))^[m] s = i := by
  obtain ⟨m, hm⟩ := h
  have hne := iterate_ne_of_getD_zero h0 hp hi hm
  have key : ∀ t, t ≤ m → (chainStep (chain.set p v))^[t] s = (chainStep chain)^[t] s := by
    intro t
    induction t with
    | zero => intro _; rfl
    | succ t ih =>
      intro htm
      rw [Function.iterate_succ_apply', Function.iterate_succ_apply', ih (by omega)]
      exact getD_set_ne _ _ _ _ (hne t (by omega))
  exact ⟨m, by rw [key m le_rfl, hm]⟩

/-- The chain walk of the insertion loop is a genuine lookup walk: its
result is reachable from its start. -/
theorem chainEnd_reaches (chain : List Nat) (fuel : Nat) :
    ∀ j, ∃ m, (chainStep chain)^[m] j = chainEnd chain fuel j := by
  induction fuel with
  | zero => exact fun j => ⟨0, rfl⟩
  | succ fuel ih =>
    intro j
    unfold chainEnd
    by_cases h : chain.getD j 0 = 0
    · rw [if_pos h]
      exact ⟨0, rfl⟩
    · rw [if_neg h]
      obtain ⟨m, hm⟩ := ih (chain.getD j 0)
      exact ⟨m + 1, by rw [Function.iterate_succ_apply]; exact hm⟩

/-- The chain walk stays within the stored index bound. -/
theorem chainEnd_le (chain : List Nat) {k : Nat} (hval : ∀ j', chain.getD j' 0 ≤ k) :
    ∀ fuel j, j ≤ k → chainEnd chain fuel j ≤ k := by
  intro fuel
  induction fuel with
  | zero => exact fun j hj => hj
  | succ fuel ih =>
    intro j hj
    unfold chainEnd
    split
    · exact hj
    · exact ih _ (hval j)

/-- The chain walk never drops to the undefined index. -/
theorem chainEnd_pos (chain : List Nat) :
    ∀ fuel j, 1 ≤ j → 1 ≤ chainEnd chain fuel j := by
  intro fuel
  induction fuel with
  | zero => exact fun j hj => hj
  | succ fuel ih =>
    intro j hj
    unfold chainEnd
    split
    · exact hj
    · exact ih _ (Nat.pos_of_ne_zero (by assumption))

/-- With strictly increasing links bounded by `k`, fuel covering the gap
up to `k` lands the chain walk on a clear cell — the loop terminates. -/
theorem chainEnd_terminal (chain : List Nat) {k : Nat}
    (hval : ∀ j', chain.getD j' 0 ≤ k)
    (hinc : ∀ j', chain.getD j' 0 ≠ 0 → j' < chain.getD j' 0) :
    ∀ fuel j, k + 1 ≤ fuel + j → chain.getD (chainEnd chain fuel j) 0 = 0 := by
  intro fuel
  induction fuel with
  | zero =>
    intro j hj
    by_contra hne
    have h1 := hinc j hne
    have h2 := hval j
    omega
  | succ fuel ih =>
    intro j hj
    unfold chainEnd
    split
    · assumption
    · rename_i h
      exact ih (chain.getD j 0) (by have := hinc j h; have := hval j; omega)

/-- One insertion step of `GenerateHashContents` preserves the table
invariant, keeps every present index reachable from its bucket, and
makes the new index reachable from its own bucket. -/
theorem insertSym_step (nb total k hv : Nat) (hnb : 0 < nb) (hk : k + 1 ≤ total)
    {st : HashState} (inv : ChainInv nb k total st) :
    ChainInv nb (k + 1) total (insertSym nb st hv (k + 1)) ∧
    (∀ b i, i ≠ 0 → Reaches st.buckets st.chain b i →
       Reaches (insertSym nb st hv (k + 1)).buckets (insertSym nb st hv (k + 1)).chain b i) ∧
    Reaches (insertSym nb st hv (k + 1)).buckets (insertSym nb st hv (k + 1)).chain
      (hv % nb) (k + 1) := by
  by_cases hb : st.buckets.getD (hv % nb) 0 = 0
  · have hred : insertSym nb st hv (k + 1)
        = { st with buckets := st.buckets.set (hv % nb) (k + 1) } := by
      rw [insertSym, if_pos hb]
    have hblt : hv % nb < st.buckets.length := by
      rw [inv.blen]
      exact Nat.mod_lt hv hnb
    rw [hred]
    refine ⟨?_, ?_, ?_⟩
    · refine ⟨?_, inv.clen, inv.czero, fun j => le_trans (inv.cval j) (Nat.le_succ k),
        inv.cinc, fun j hj => inv.chi j (by omega), ?_⟩
      · simpa using inv.blen
      · intro b
        by_cases hbe : b = hv % nb
        · subst hbe
          rw [getD_set_self _ _ _ hblt]
        · rw [getD_set_ne _ _ _ _ hbe]
          exact le_trans (inv.bval b) (Nat.le_succ k)
    · intro b i hi hr
      show Reaches (st.buckets.set (hv % nb) (k + 1)) st.chain b i
      obtain ⟨m, hm⟩ := hr
      by_cases hbe : b = hv % nb
      · subst hbe
        rw [hb, chainStep_zero inv.czero] at hm
        exact absurd hm.symm hi
      · exact ⟨m, by rwa [getD_set_ne _ _ _ _ hbe]⟩
    · show Reaches (st.buckets.set (hv % nb) (k + 1)) st.chain (hv % nb) (k + 1)
      exact ⟨0, getD_set_self _ _ _ hblt⟩
  · have hred : insertSym nb st hv (k + 1)
        = { st with chain := st.chain.set (chainEnd st.chain st.chain.length (st.buckets.getD (hv % nb) 0)) (k + 1) } := by
      rw [insertSym, if_neg hb]
    set s0 := st.buckets.getD (hv % nb) 0 with hs0
    set jend := chainEnd st.chain st.chain.length s0 with hjend
    have hs0le : s0 ≤ k := inv.bval _
    have hs0pos : 1 ≤ s0 := Nat.pos_of_ne_zero hb
    have hjle : jend ≤ k := chainEnd_le st.chain inv.cval _ _ hs0le
    have hjpos : 1 ≤ jend := chainEnd_pos st.chain _ _ hs0pos
    have hjzero : st.chain.getD jend 0 = 0 := by
      apply chainEnd_terminal st.chain inv.cval inv.cinc
      rw [inv.clen]
      omega
    have hjlt : jend < st.chain.length := by
      rw [inv.clen]
      omega
    rw [hred]
    refine ⟨?_, ?_, ?_⟩
    · refine ⟨inv.blen, ?_, ?_, ?_, ?_, ?_,
        fun b => le_trans (inv.bval b) (Nat.le_succ k)⟩
      · rw [List.length_set]
        exact inv.clen
      · rw [getD_set_ne _ _ _ _ (by omega)]
        exact inv.czero
      · intro j
        by_cases hje : j = jend
        · subst hje
          rw [getD_set_self _ _ _ hjlt]
        · rw [getD_set_ne _ _ _ _ hje]
          exact le_trans (inv.cval j) (Nat.le_succ k)
      · intro j hj
        by_cases hje : j = jend
        · subst hje
          rw [getD_set_self _ _ _ hjlt]
          omega
        · rw [getD_set_ne _ _ _ _ hje] at hj ⊢
          exact inv.cinc j hj
      · intro j hj
        rw [getD_set_ne _ _ _ _ (by omega)]
        exact inv.chi j (by omega)
    · intro b i hi hr
      show Reaches st.buckets (st.chain.set jend (k + 1)) b i
      exact reaches_set_of_zero inv.czero hjzero _ hi hr
    · show Reaches st.buckets (st.chain.set jend (k + 1)) (hv % nb) (k + 1)
      have hr0 : ∃ m, (chainStep st.chain)^[m] s0 = jend := chainEnd_reaches st.chain _ s0
      have hr1 : ∃ m, (chainStep (st.chain.set jend (k + 1)))^[m] s0 = jend :=
        reaches_set_of_zero inv.czero hjzero _ (by omega) hr0
      obtain ⟨m, hm⟩ := hr1
      refine ⟨m + 1, ?_⟩
      rw [Function.iterate_succ_apply', ← hs0, hm]
      exact getD_set_self _ _ _ hjlt

/-- Running the insertion loop from a valid intermediate state keeps the
invariant, preserves established lookups, and establishes the lookup of
every symbol it inserts. -/
theorem insertFrom_spec (nb total : Nat) (hnb : 0 < nb) :
    ∀ (rest : List Nat) (i : Nat) (st : HashState),
      i + rest.length ≤ total →
      ChainInv nb i total st →
      ChainInv nb (i + rest.length) total (insertFrom nb i rest st) ∧
      (∀ b j, j ≠ 0 → Reaches st.buckets st.chain b j →
         Reaches (insertFrom nb i rest st).buckets (insertFrom nb i rest st).chain b j) ∧
      (∀ t (ht : t < rest.length),
         Reaches (insertFrom nb i rest st).buckets (insertFrom nb i rest st).chain
           (rest[t] % nb) (i + t + 1)) := by
  intro rest
  induction rest with
  | nil =>
    intro i st _ inv
    exact ⟨by simpa using inv, fun b j _ h => h, fun t ht => absurd ht (by simp)⟩
  | cons hv rest ih =>
    intro i st hle inv
    have hle' : i + 1 ≤ total := by
      simp only [List.length_cons] at hle
      omega
    obtain ⟨inv', pres', reach'⟩ := insertSym_step nb total i hv hnb hle' inv
    have hstep : insertFrom nb i (hv :: rest) st
        = insertFrom nb (i + 1) rest (insertSym nb st hv (i + 1)) := rfl
    obtain ⟨invF, presF, reachF⟩ := ih (i + 1) (insertSym nb st hv (i + 1))
        (by simp only [List.length_cons] at hle; omega) inv'
    rw [hstep]
    refine ⟨?_, ?_, ?_⟩
    · have harith : i + (hv :: rest).length = (i + 1) + rest.length := by
        simp only [List.length_cons]
        omega
      rw [harith]
      exact invF
    · intro b j hj hr
      exact presF b j hj (pres' b j hj hr)
    · intro t ht
      match t with
      | 0 =>
        have := presF _ (i + 1) (Nat.succ_ne_zero i) reach'
        simpa using this
      | Nat.succ t' =>
        have ht' : t' < rest.length := by
          simp only [List.length_cons] at ht
          omega
        have := reachF t' ht'
        have harith : i + 1 + t' + 1 = i + (t' + 1) + 1 := by omega
        rw [harith] at this
        simpa using this

/-- The freshly zeroed bucket and chain arrays satisfy the invariant
with no symbols inserted. -/
theorem chainInv_init (nb n : Nat) :
    ChainInv nb 0 n ⟨List.replicate nb 0, List.replicate (n + 1) 0⟩ := by
  refine ⟨by simp, by simp, getD_replicate_zero _ _, fun j => ?_, fun j hj => ?_, fun j _ => ?_,
    fun b => ?_⟩
  · rw [getD_replicate_zero]
  · exact absurd (getD_replicate_zero (n + 1) j) hj
  · exact getD_replicate_zero _ _
  · rw [getD_replicate_zero]

/-- The bucket-count selection always returns a positive count. -/
theorem nbucketsFor_pos (n : Nat) : 0 < nbucketsFor n := by
  unfold nbucketsFor
  split
  · norm_num
  split
  · norm_num
  split
  · norm_num
  · unfold roundUp
    omega

/-- C1: `GenerateHashContents` emits a table whose bucket count is 2
below 8 symbols, 4 below 32, 16 below 256 and `round_up(count/32, 2)`
otherwise, whose `nchain` counts the symbols plus the null symbol, and
in which — for pairwise-distinct names — the lookup walk that starts at
`bucket[elfhash(name) mod nbuckets]` and follows chain links visits each
symbol's true 1-based index. -/
theorem c1_hash_table (names : List (List Char))
    (hd : List.Pairwise (· ≠ ·) names) :
    ∃ buckets chain : List Nat,
      generateHashContents names
        = nbucketsFor names.length :: (names.length + 1) :: (buckets ++ chain) ∧
      buckets.length = nbucketsFor names.length ∧
      chain.length = names.length + 1 ∧
      nbucketsFor names.length
        = (if names.length < 8 then 2 else if names.length < 32 then 4
           else if names.length < 256 then 16 else roundUp (names.length / 32) 2) ∧
      ∀ i (hi : i < names.length),
        Reaches buckets chain (elfhash names[i] % nbucketsFor names.length) (i + 1) := by
  obtain ⟨inv, _, reach⟩ := insertFrom_spec (nbucketsFor names.length) names.length
      (nbucketsFor_pos _) (names.map elfhash) 0
      ⟨List.replicate (nbucketsFor names.length) 0, List.replicate (names.length + 1) 0⟩
      (by simp) (chainInv_init _ _)
  refine ⟨_, _, rfl, inv.blen, inv.clen, rfl, ?_⟩
  intro i hi
  have hmap : i < (names.map elfhash).length := by simpa using hi
  have := reach i hmap
  simpa using this

/-- Closed instance of the C1 theorem on the three mandatory symbol
names. -/
theorem c1_hash_table_witness :
    ∃ buckets chain : List Nat,
      generateHashContents (dynsymNames cfgNoBss)
        = nbucketsFor (dynsymNames cfgNoBss).length
          :: ((dynsymNames cfgNoBss).length + 1) :: (buckets ++ chain) ∧
      buckets.length = nbucketsFor (dynsymNames cfgNoBss).length ∧
      chain.length = (dynsymNames cfgNoBss).length + 1 ∧
      nbucketsFor (dynsymNames cfgNoBss).length
        = (if (dynsymNames cfgNoBss).length < 8 then 2
           else if (dynsymNames cfgNoBss).length < 32 then 4
           else if (dynsymNames cfgNoBss).length < 256 then 16
           else roundUp ((dynsymNames cfgNoBss).length / 32) 2) ∧
      ∀ i (hi : i < (dynsymNames cfgNoBss).length),
        Reaches buckets chain
          (elfhash (dynsymNames cfgNoBss)[i] % nbucketsFor (dynsymNames cfgNoBss).length)
          (i + 1) :=
  c1_hash_table (dynsymNames cfgNoBss) (by decide)

end ElfSpec
